import Mathlib

/-!
Shallow embedding of the bootstrap / configuration-ingestion layer of the
ucode command-line front end (src/main.c), together with theorems checking
the natural-language specification against it.

Strings from the C side (keys, namespace prefixes, raw option arguments,
source bytes) are modelled as lists of byte values (`List Nat`); JSON values
as an inductive `JsonVal`; json-c objects as ordered association lists with
the json-c insertion semantics (replace in place when the key exists,
append otherwise).
-/

set_option autoImplicit false

namespace Ucode

/-- JSON values as produced by the json-c tokenizer. Object fields keep
insertion order, as json-c does. -/
inductive JsonVal where
  | null
  | boolean (b : Bool)
  | num (n : Int)
  | str (s : List Nat)
  | arr (elems : List JsonVal)
  | obj (fields : List (List Nat × JsonVal))

/-- A json-c object: an ordered association list from key bytes to values. -/
abbrev JObj := List (List Nat × JsonVal)

/-- json_object_object_add: if the key already exists, replace its value in
place (keeping its position); otherwise append the new pair at the end. -/
def objAdd : JObj → List Nat → JsonVal → JObj
  | [], k, v => [(k, v)]
  | kv :: rest, k, v =>
      if kv.1 = k then (k, v) :: rest else kv :: objAdd rest k v

/-- Key lookup in a json-c object (first matching entry). -/
def lookupObj : JObj → List Nat → Option JsonVal
  | [], _ => none
  | kv :: rest, k => if kv.1 = k then some kv.2 else lookupObj rest k

/-- The value of the last entry carrying key `k`, if any. -/
def lastVal : JObj → List Nat → Option JsonVal
  | [], _ => none
  | kv :: rest, k =>
      match lastVal rest k with
      | some v => some v
      | none => if kv.1 = k then some kv.2 else none

theorem lookupObj_objAdd_self (o : JObj) (k : List Nat) (v : JsonVal) :
    lookupObj (objAdd o k v) k = some v := by
  induction o with
  | nil => simp [objAdd, lookupObj]
  | cons kv rest ih =>
      by_cases h : kv.1 = k
      · simp [objAdd, h, lookupObj]
      · simp [objAdd, h, lookupObj, ih]

theorem lookupObj_objAdd_ne (o : JObj) (k k' : List Nat) (v : JsonVal)
    (h : k' ≠ k) : lookupObj (objAdd o k v) k' = lookupObj o k' := by
  induction o with
  | nil => simp [objAdd, lookupObj, Ne.symm h]
  | cons kv rest ih =>
      by_cases hk : kv.1 = k
      · subst hk
        simp [objAdd, lookupObj, h, Ne.symm h]
      · by_cases hk' : kv.1 = k'
        · rw [show objAdd (kv :: rest) k v = kv :: objAdd rest k v from by
            simp [objAdd, hk]]
          simp [lookupObj, hk']
        · simp [objAdd, hk, lookupObj, hk', ih]

theorem lookupObj_foldl_objAdd (libs : JObj) (n : List Nat) :
    ∀ g : JObj,
      lookupObj (libs.foldl (fun s kv => objAdd s kv.1 kv.2) g) n =
        match lastVal libs n with
        | some v => some v
        | none => lookupObj g n := by
  induction libs with
  | nil => intro g; simp [lastVal]
  | cons kv rest ih =>
      intro g
      have step : (kv :: rest).foldl (fun s kv => objAdd s kv.1 kv.2) g =
          rest.foldl (fun s kv => objAdd s kv.1 kv.2) (objAdd g kv.1 kv.2) := rfl
      rw [step, ih]
      cases hrest : lastVal rest n with
      | some v => simp [lastVal, hrest]
      | none =>
          by_cases hk : kv.1 = n
          · subst hk
            simp [lastVal, hrest, lookupObj_objAdd_self]
          · have hne : n ≠ kv.1 := fun h => hk h.symm
            simp [lastVal, hrest, hk, lookupObj_objAdd_ne g kv.1 n kv.2 hne]

/-! ### Key sanitization and the globals scope (register_variable, globals_init) -/

/-- The C locale isalnum on a byte: an ASCII digit or letter. -/
def isAlnumByte (b : Nat) : Bool :=
  (48 ≤ b && b ≤ 57) || (65 ≤ b && b ≤ 90) || (97 ≤ b && b ≤ 122)

/-- The loop body of register_variable: a byte that is not alphanumeric and
not an underscore (95) is rewritten to an underscore. -/
def sanitizeByte (b : Nat) : Nat :=
  if isAlnumByte b || b == 95 then b else 95

/-- A byte allowed in an installed variable name: the character class
underlying the pattern A-Za-z0-9_. -/
def isWordByte (b : Nat) : Bool :=
  isAlnumByte b || b == 95

/-- The in-place rewriting loop of register_variable over the copied key. -/
def sanitize (k : List Nat) : List Nat :=
  k.map sanitizeByte

/-- The nonempty word pattern from the specification invariant. -/
def matchesVarPattern (s : List Nat) : Bool :=
  !s.isEmpty && s.all isWordByte

/-- register_variable from src/main.c: duplicate the key, rewrite every byte
outside the word class to an underscore, then json_object_object_add the
value into the scope object under the rewritten name. -/
def register_variable (scope : JObj) (key : List Nat) (val : JsonVal) : JObj :=
  objAdd scope (sanitize key) val

/-- Splitting a colon-delimited path list on byte 58, preserving empty
segments, as the loop in globals_init does. -/
def splitColon : List Nat → List (List Nat)
  | [] => [[]]
  | b :: rest =>
      if b = 58 then [] :: splitColon rest
      else
        match splitColon rest with
        | seg :: segs => (b :: seg) :: segs
        | [] => [[b]]

/-- The key bytes of REQUIRE_SEARCH_PATH. -/
def requireSearchPathKey : List Nat :=
  [82, 69, 81, 85, 73, 82, 69, 95, 83, 69, 65, 82, 67, 72, 95, 80, 65, 84, 72]

/-- globals_init from src/main.c: split the library search path on colons and
install the resulting array of strings under REQUIRE_SEARCH_PATH. -/
def globals_init (scope : JObj) (libSearchPath : List Nat) : JObj :=
  objAdd scope requireSearchPathKey
    (JsonVal.arr ((splitColon libSearchPath).map JsonVal.str))

/-- Modelled from the spec: uc_lib_init, the standard-library installer,
is declared in lib.h and its definition is not under src/. Per the
specification it populates built-in bindings into the globals scope object;
each (name, value) binding is inserted into the scope mapping with the same
json_object_object_add insertion used by the rest of the file. -/
def uc_lib_init (scope : JObj) (bindings : JObj) : JObj :=
  bindings.foldl (fun s kv => objAdd s kv.1 kv.2) scope

/-- The globals-construction sequence of parse() in src/main.c: globals_init,
then register_variable for every configuration entry (when one was merged),
then the standard-library installer. -/
def buildGlobals (libSearchPath : List Nat) (env : Option JObj)
    (libBindings : JObj) : JObj :=
  let g := globals_init [] libSearchPath
  let g :=
    match env with
    | some e => e.foldl (fun s kv => register_variable s kv.1 kv.2) g
    | none => g
  uc_lib_init g libBindings

/-! ### Configuration merging (the -e and -E handlers in main) -/

/-- strchr-based splitting of an option argument at the first equals sign
(byte 61): when one is found the bytes before it become the namespace part
and the bytes after it the payload; otherwise there is no namespace part and
the whole argument is the payload. -/
def splitArg : List Nat → Option (List Nat) × List Nat
  | [] => (none, [])
  | b :: rest =>
      if b = 61 then (some [], rest)
      else
        match splitArg rest with
        | (some ns, payload) => (some (b :: ns), payload)
        | (none, _) => (none, b :: rest)

/-- The merge loop of the -e and -E handlers: add every field of the parsed
object into the destination object, later fields overwriting earlier ones. -/
def mergeInto (dest : JObj) (o : JObj) : JObj :=
  o.foldl (fun d kv => objAdd d kv.1 kv.2) dest

/-- One -e or -E merge request from main() in src/main.c: split the raw
argument at the first equals sign; lazily create the configuration object;
when an equals sign was found and the namespace part is nonempty, build a
fresh child object from the parsed payload and add it under the namespace
key (replacing any existing entry); otherwise merge the payload fields into
the top level. -/
def envMergeStep (env : Option JObj) (arg : List Nat) (o : JObj) : JObj :=
  let ns := (splitArg arg).1
  let e := env.getD []
  match ns with
  | some pfx =>
      if pfx ≠ [] then objAdd e pfx (JsonVal.obj (mergeInto [] o))
      else mergeInto e o
  | none => mergeInto e o

/-- The child object stored under a key, when the entry exists and is an
object. -/
def childOf (e : JObj) (k : List Nat) : Option JObj :=
  match lookupObj e k with
  | some (JsonVal.obj fields) => some fields
  | _ => none

theorem splitArg_of_ns (pfx payload : List Nat) (h : 61 ∉ pfx) :
    splitArg (pfx ++ 61 :: payload) = (some pfx, payload) := by
  induction pfx with
  | nil => simp [splitArg]
  | cons b rest ih =>
      have hb : b ≠ 61 := fun hb => h (by simp [hb])
      have hrest : 61 ∉ rest := fun hm => h (List.mem_cons_of_mem _ hm)
      simp [splitArg, hb, ih hrest]

/-! ### The chunked JSON reader (parse_envfile) -/

/-- Cutting a byte stream into the successive chunks returned by fread with
a 128-byte buffer: every chunk is full except possibly the last, and a read
at end of input returns zero bytes (no empty chunk is produced). The second
argument accumulates the bytes of the chunk being formed. -/
def chunksAux : List Nat → List Nat → List (List Nat)
  | [], acc => if acc = [] then [] else [acc]
  | b :: rest, acc =>
      if (acc ++ [b]).length = 128 then (acc ++ [b]) :: chunksAux rest []
      else chunksAux rest (acc ++ [b])

/-- The chunk sequence fread yields for a byte stream. -/
def chunksOf (s : List Nat) : List (List Nat) :=
  chunksAux s []

theorem flatten_chunksAux (s : List Nat) :
    ∀ acc : List Nat, (chunksAux s acc).flatten = acc ++ s := by
  induction s with
  | nil =>
      intro acc
      by_cases h : acc = [] <;> simp [chunksAux, h]
  | cons b rest ih =>
      intro acc
      rw [chunksAux]
      by_cases h : (acc ++ [b]).length = 128
      · rw [if_pos h]
        simp [ih]
      · rw [if_neg h, ih]
        simp

theorem flatten_chunksOf (s : List Nat) : (chunksOf s).flatten = s := by
  simpa using flatten_chunksAux s []

/-- The three terminal conditions the reader distinguishes on the json-c
tokenizer error state: success, continue (more input wanted), or any
parse failure. -/
inductive TokErr where
  | success
  | cont
  | failed
  deriving DecidableEq

/-- An incremental json-c tokenizer, abstracted as a function of all bytes
fed so far: json_tokener_parse_ex returns the value built so far (when any)
and sets the tokenizer error state. -/
structure Tok where
  run : List Nat → Option JsonVal × TokErr

/-- The fread loop of parse_envfile in src/main.c: feed each chunk to the
tokenizer, stop at the first chunk after which the error state is not
continue, or when the input is exhausted. The value and error parameters
are the local variables rv and err of the C function, returned unchanged
when no chunk remains. -/
def feedChunks (tok : Tok) : List (List Nat) → List Nat → Option JsonVal →
    TokErr → Option JsonVal × TokErr
  | [], _, rv, err => (rv, err)
  | ch :: rest, fed, _, _ =>
      let fed := fed ++ ch
      let r := tok.run fed
      if r.2 = TokErr.cont then feedChunks tok rest fed r.1 r.2 else r

/-- Whether an optional JSON value exists and is of object type, as tested
by json_object_is_type(rv, json_type_object); a NULL value is of null type
and fails the test. -/
def isObjV : Option JsonVal → Bool
  | some (JsonVal.obj _) => true
  | _ => false

/-- parse_envfile from src/main.c, with the indeterminate initial content of
the uninitialized local variable err made explicit as the parameter e0: run
the chunked read loop, then release and drop the value unless the terminal
error state is success and the value is an object. -/
def parse_envfileE (tok : Tok) (e0 : TokErr) (input : List Nat) :
    Option JsonVal :=
  let r := feedChunks tok (chunksOf input) [] none e0
  if r.2 ≠ TokErr.success ∨ isObjV r.1 = false then none else r.1

/-- The fatal error kinds surfaced by main(). -/
inductive MainErr where
  | invalidConfig (optLetter : Nat)
  deriving DecidableEq

/-- The check in the -e and -E handlers of main(): a missing result from
parse_envfile is diagnosed as an invalid-config error naming the option
letter, otherwise the object fields are handed on. -/
def envOptCheck (optLetter : Nat) (o : Option JsonVal) : Except MainErr JObj :=
  match o with
  | some (JsonVal.obj fields) => Except.ok fields
  | _ => Except.error (MainErr.invalidConfig optLetter)

/-- A concrete tokenizer used to instantiate witnesses: it reports a parse
failure on any input. -/
def tokReject : Tok :=
  ⟨fun _ => (none, TokErr.failed)⟩

/-! ### The standard-input capture guard (read_stdin) -/

/-- The failure read_stdin reports on a second capture attempt. -/
inductive StdinErr where
  | alreadyConsumed
  deriving DecidableEq

/-- read_stdin from src/main.c. The first component of the state is the
process-wide capture slot (the char pointer behind ptr): when it is already
set, the call fails with the already-consumed error, reads nothing, and
leaves the slot unchanged. Otherwise the fread loop drains standard input
chunk by chunk into a growing buffer; the slot ends up set exactly when at
least one byte was appended, and a source handle over the captured bytes is
returned. The results are the returned source bytes, the new slot, and the
remaining standard-input stream. -/
def read_stdin (slot : Option (List Nat)) (stream : List Nat) :
    Except StdinErr (List Nat) × Option (List Nat) × List Nat :=
  match slot with
  | some bs => (Except.error StdinErr.alreadyConsumed, some bs, stream)
  | none =>
      let captured := (chunksOf stream).flatten
      (Except.ok captured,
       if captured = [] then none else some captured,
       [])

/-! ### Shebang handling in parse() -/

/-- The value a char variable holds after the store c = fgetc(...): parse()
declares c and c2 as char, and on the reference build targets of this
program (x86, MIPS) char is signed, so a byte at or above 128 is truncated
to a negative value; byte 255 (0xFF) becomes -1 and is thereby
indistinguishable from EOF in every comparison the function performs. -/
def charOfByte (b : Nat) : Int :=
  if b < 128 then (b : Int) else (b : Int) - 256

/-- fgetc followed by the truncating store into a char variable: the char
value obtained (-1 at end of input) and the rest of the stream. A byte is
consumed from the stream even when its char value collides with EOF. -/
def fgetcChar : List Nat → Int × List Nat
  | [] => (-1, [])
  | b :: rest => (charOfByte b, rest)

/-- ungetc applied to a promoted char value: ungetc(EOF) fails and leaves
the stream unchanged, which also drops a real 0xFF byte, since its signed
char value is -1; any other char value pushes back its unsigned-char
byte. -/
def ungetcChar (c : Int) (s : List Nat) : List Nat :=
  if c = -1 then s else ((c + 256) % 256).toNat :: s

/-- The discard loop of parse() with its char-typed loop variable: read a
byte into char c; the loop exits when c compares equal to EOF, which
happens at end of input and also when the byte read was 0xFF (the byte is
consumed either way and src->off is not incremented for it); otherwise
src->off grows by one and the loop ends after a newline byte. Returns the
remaining stream and the amount added to src->off. -/
def discardLine : List Nat → List Nat × Nat
  | [] => ([], 0)
  | b :: rest =>
      if charOfByte b = -1 then (rest, 0)
      else if charOfByte b = 10 then (rest, 1)
      else
        let r := discardLine rest
        (r.1, r.2 + 1)

/-- The shebang block of parse() in src/main.c: probe two bytes through the
char-typed fgetc stores; when the char values are hash and bang (35, 33),
run the discard loop; otherwise push both back in last-in-first-out order
through ungetc, which silently fails on the EOF value. Returns the stream
the compiler will read and the amount added to src->off. -/
def skip_shebang (s : List Nat) : List Nat × Nat :=
  let r1 := fgetcChar s
  let r2 := fgetcChar r1.2
  if r1.1 = 35 ∧ r2.1 = 33 then
    discardLine r2.2
  else
    (ungetcChar r1.1 (ungetcChar r2.1 r2.2), 0)

/-- The bytes the compiler reads from the source: parse() runs the shebang
block exactly when its skip_shebang argument is set, and main() sets that
argument exactly for a bare positional file path. -/
def sourceSeenByCompiler (shebang : Bool) (bytes : List Nat) : List Nat :=
  if shebang then (skip_shebang bytes).1 else bytes

/-! ### Source resolution in main() (-i, -s, positional path) -/

/-- The two source-selecting options of the getopt loop: -i with a path
argument and -s with an inline script text. Opening is taken to succeed;
an open failure exits before any later option or the positional fallback
is looked at. -/
inductive SrcOpt where
  | optI (path : List Nat)
  | optS (text : List Nat)
  deriving DecidableEq

/-- Where the resolved source handle came from. -/
inductive Origin where
  | fromI (path : List Nat)
  | fromS (text : List Nat)
  | fromPos (path : List Nat)
  deriving DecidableEq

/-- The source handle a -i or -s handler installs. -/
def originOf : SrcOpt → Origin
  | SrcOpt.optI p => Origin.fromI p
  | SrcOpt.optS t => Origin.fromS t

/-- One step of the getopt loop for a source option, on the pair of the
current source handle and the count of conflict diagnostics: when a source
is already set the handler prints the exclusivity diagnostic, and in every
case it overwrites the source with its own. -/
def applyOpt (st : Option Origin × Nat) (o : SrcOpt) : Option Origin × Nat :=
  (some (originOf o), if st.1.isSome then st.2 + 1 else st.2)

/-- The last element of an option list, when the list is nonempty. -/
def lastOpt : List SrcOpt → Option SrcOpt
  | [] => none
  | [o] => some o
  | _ :: rest@(_ :: _) => lastOpt rest

/-- The source resolution of main() in src/main.c: run the getopt loop over
the source options, then, exactly when no option set a source and a
positional path remains, open that path and mark it for shebang skipping.
The results are the resolved origin, the shebang mark, and the number of
exclusivity diagnostics printed. -/
def resolveSource (opts : List SrcOpt) (positional : Option (List Nat)) :
    Option Origin × Bool × Nat :=
  match (opts.foldl applyOpt (none, 0)).1, positional with
  | some o, _ => (some o, false, (opts.foldl applyOpt (none, 0)).2)
  | none, some p => (some (Origin.fromPos p), true, (opts.foldl applyOpt (none, 0)).2)
  | none, none => (none, false, (opts.foldl applyOpt (none, 0)).2)

theorem foldl_applyOpt_last (opts : List SrcOpt) (hne : opts ≠ []) :
    ∀ st : Option Origin × Nat, ∃ o : SrcOpt,
      lastOpt opts = some o ∧ (opts.foldl applyOpt st).1 = some (originOf o) := by
  induction opts with
  | nil => exact absurd rfl hne
  | cons a rest ih =>
      intro st
      cases rest with
      | nil => exact ⟨a, by simp [lastOpt], rfl⟩
      | cons b tail =>
          obtain ⟨o, h1, h2⟩ := ih (by simp) (applyOpt st a)
          exact ⟨o, by simpa [lastOpt] using h1, h2⟩

theorem foldl_applyOpt_diag_some (opts : List SrcOpt) :
    ∀ (o : Origin) (d : Nat),
      (opts.foldl applyOpt (some o, d)).2 = d + opts.length := by
  induction opts with
  | nil => intro o d; simp
  | cons a rest ih =>
      intro o d
      have step : ((a :: rest).foldl applyOpt (some o, d)) =
          rest.foldl applyOpt (some (originOf a), d + 1) := by
        simp [applyOpt]
      rw [step, ih]
      simp
      omega

theorem foldl_applyOpt_diag_none (a : SrcOpt) (rest : List SrcOpt) :
    ((a :: rest).foldl applyOpt (none, 0)).2 = rest.length := by
  have step : ((a :: rest).foldl applyOpt (none, 0)) =
      rest.foldl applyOpt (some (originOf a), 0) := by
    simp [applyOpt]
  rw [step, foldl_applyOpt_diag_some]
  simp

/-! ### The execution driver (parse) as an event trace -/

/-- The observable events of one run of parse() in src/main.c, including
the resource releases at the out label. -/
inductive Ev where
  | vmInit
  | compiled (ok : Bool)
  | globalsBuilt
  | libInstalled
  | rootBuilt
  | executed (rc : Int)
  | relVm
  | relGlobals
  | relRoot
  deriving DecidableEq

/-- Whether an event is a resource release. -/
def isRel : Ev → Bool
  | Ev.relVm => true
  | Ev.relGlobals => true
  | Ev.relRoot => true
  | _ => false

/-- The event trace and return code of parse() in src/main.c, as a function
of whether uc_compile succeeds and of the code uc_vm_execute returns. On
compile failure control jumps to the out label with result 2 and the root
scope never constructed; on execute failure the result is forced to 1; the
out label frees the virtual machine, releases the globals object, and
releases the root object when it was constructed. -/
def parseTrace (compileOk : Bool) (execRc : Int) : Int × List Ev :=
  let pre := [Ev.vmInit, Ev.compiled compileOk]
  if compileOk then
    let t := pre ++ [Ev.globalsBuilt, Ev.libInstalled, Ev.rootBuilt,
                     Ev.executed execRc]
    let rc : Int := if execRc ≠ 0 then 1 else 0
    (rc, t ++ [Ev.relVm, Ev.relGlobals, Ev.relRoot])
  else
    (2, pre ++ [Ev.relVm, Ev.relGlobals])

/-! ### Auxiliary lemmas -/

theorem isWordByte_sanitizeByte (b : Nat) :
    isWordByte (sanitizeByte b) = true := by
  unfold sanitizeByte isWordByte
  by_cases h : isAlnumByte b || b == 95
  · rw [if_pos h]
    exact h
  · rw [if_neg h]
    decide

theorem charOfByte_ne_eof (b : Nat) (hb : b < 256) (h255 : b ≠ 255) :
    charOfByte b ≠ -1 := by
  unfold charOfByte
  by_cases h : b < 128 <;> simp [h] <;> omega

theorem charOfByte_ne_ten (b : Nat) (hb : b < 256) (h10 : b ≠ 10) :
    charOfByte b ≠ 10 := by
  unfold charOfByte
  by_cases h : b < 128 <;> simp [h] <;> omega

theorem ungetcChar_charOfByte (b : Nat) (hb : b < 256) (h255 : b ≠ 255)
    (s : List Nat) : ungetcChar (charOfByte b) s = b :: s := by
  unfold ungetcChar
  rw [if_neg (charOfByte_ne_eof b hb h255)]
  have hback : ((charOfByte b + 256) % 256).toNat = b := by
    unfold charOfByte
    by_cases h : b < 128 <;> simp [h] <;> omega
  rw [hback]

theorem discardLine_newline (line body : List Nat) (h10 : 10 ∉ line)
    (h255 : 255 ∉ line) (hlt : ∀ b ∈ line, b < 256) :
    discardLine (line ++ 10 :: body) = (body, line.length + 1) := by
  induction line with
  | nil => simp [discardLine, charOfByte]
  | cons b rest ih =>
      have hb : b < 256 := hlt b (by simp)
      have h1 : charOfByte b ≠ -1 :=
        charOfByte_ne_eof b hb (fun hbe => h255 (by simp [hbe]))
      have h2 : charOfByte b ≠ 10 :=
        charOfByte_ne_ten b hb (fun hbe => h10 (by simp [hbe]))
      have ihr := ih (fun hm => h10 (List.mem_cons_of_mem _ hm))
        (fun hm => h255 (List.mem_cons_of_mem _ hm))
        (fun x hx => hlt x (List.mem_cons_of_mem _ hx))
      simp [discardLine, h1, h2, ihr]

theorem discardLine_eof (line : List Nat) (h10 : 10 ∉ line)
    (h255 : 255 ∉ line) (hlt : ∀ b ∈ line, b < 256) :
    discardLine line = ([], line.length) := by
  induction line with
  | nil => simp [discardLine]
  | cons b rest ih =>
      have hb : b < 256 := hlt b (by simp)
      have h1 : charOfByte b ≠ -1 :=
        charOfByte_ne_eof b hb (fun hbe => h255 (by simp [hbe]))
      have h2 : charOfByte b ≠ 10 :=
        charOfByte_ne_ten b hb (fun hbe => h10 (by simp [hbe]))
      have ihr := ih (fun hm => h10 (List.mem_cons_of_mem _ hm))
        (fun hm => h255 (List.mem_cons_of_mem _ hm))
        (fun x hx => hlt x (List.mem_cons_of_mem _ hx))
      simp [discardLine, h1, h2, ihr]

theorem discardLine_at_255 (line rest : List Nat) (h10 : 10 ∉ line)
    (h255 : 255 ∉ line) (hlt : ∀ b ∈ line, b < 256) :
    discardLine (line ++ 255 :: rest) = (rest, line.length) := by
  induction line with
  | nil => simp [discardLine, charOfByte]
  | cons b tail ih =>
      have hb : b < 256 := hlt b (by simp)
      have h1 : charOfByte b ≠ -1 :=
        charOfByte_ne_eof b hb (fun hbe => h255 (by simp [hbe]))
      have h2 : charOfByte b ≠ 10 :=
        charOfByte_ne_ten b hb (fun hbe => h10 (by simp [hbe]))
      have ihr := ih (fun hm => h10 (List.mem_cons_of_mem _ hm))
        (fun hm => h255 (List.mem_cons_of_mem _ hm))
        (fun x hx => hlt x (List.mem_cons_of_mem _ hx))
      simp [discardLine, h1, h2, ihr]

theorem originOf_ne_fromPos (o : SrcOpt) (p : List Nat) :
    originOf o ≠ Origin.fromPos p := by
  cases o <;> simp [originOf]

theorem skip_shebang_marker (rest : List Nat) :
    skip_shebang (35 :: 33 :: rest) = discardLine rest := by
  simp [skip_shebang, fgetcChar, charOfByte]

theorem skip_shebang_no_marker (bytes : List Nat)
    (h : bytes.take 2 ≠ [35, 33])
    (hp : ∀ b ∈ bytes.take 2, b < 256 ∧ b ≠ 255) :
    skip_shebang bytes = (bytes, 0) := by
  match bytes with
  | [] => rfl
  | [b] =>
      obtain ⟨hb, h255⟩ := hp b (by simp)
      simp only [skip_shebang, fgetcChar]
      rw [if_neg (by
        rintro ⟨-, h33⟩
        exact absurd h33 (by norm_num))]
      rw [show ungetcChar (-1) [] = [] from by simp [ungetcChar]]
      rw [ungetcChar_charOfByte b hb h255]
  | b :: b2 :: rest =>
      obtain ⟨hb, h255⟩ := hp b (by simp)
      obtain ⟨hb2, h255b⟩ := hp b2 (by simp)
      have hcond : ¬(charOfByte b = 35 ∧ charOfByte b2 = 33) := by
        rintro ⟨h1, h2⟩
        apply h
        have hb35 : b = 35 := by
          unfold charOfByte at h1
          by_cases hc : b < 128 <;> simp [hc] at h1 <;> omega
        have hb33 : b2 = 33 := by
          unfold charOfByte at h2
          by_cases hc : b2 < 128 <;> simp [hc] at h2 <;> omega
        simp [hb35, hb33]
      simp only [skip_shebang, fgetcChar]
      rw [if_neg hcond]
      rw [ungetcChar_charOfByte b2 hb2 h255b, ungetcChar_charOfByte b hb h255]

/-! ### Claim C1: namespaced configuration merges -/

/-- Claim C1 (amended): for two configuration-merge requests naming the same
non-empty namespace, the second merge does not reuse the child object
created by the first; it builds a fresh child holding only the second
request's fields and replaces the earlier entry under the namespace key, so
the first request's keys under that namespace are discarded. -/
theorem C1_second_merge_replaces_namespace_child
    (env : Option JObj) (pfx payload1 payload2 : List Nat) (o1 o2 : JObj)
    (hns : 61 ∉ pfx) (hne : pfx ≠ []) :
    lookupObj
      (envMergeStep (some (envMergeStep env (pfx ++ 61 :: payload1) o1))
        (pfx ++ 61 :: payload2) o2) pfx
      = some (JsonVal.obj (mergeInto [] o2)) := by
  conv_lhs =>
    rw [show envMergeStep (some (envMergeStep env (pfx ++ 61 :: payload1) o1))
          (pfx ++ 61 :: payload2) o2
        = objAdd (envMergeStep env (pfx ++ 61 :: payload1) o1) pfx
            (JsonVal.obj (mergeInto [] o2)) from by
      simp [envMergeStep, splitArg_of_ns pfx payload2 hns, hne]]
  exact lookupObj_objAdd_self _ pfx _

/-- Counterexample to claim C1 as stated: merging namespace a with field x
and then namespace a with field y leaves a child object holding only y; the
key x of the first request is absent, so the entry is not the union of the
two requests. Bytes: 97 is a, 61 is the equals sign, 120 is x, 121 is y. -/
theorem C1_counterexample :
    childOf
      (envMergeStep (some (envMergeStep none [97, 61] [([120], JsonVal.num 1)]))
        [97, 61] [([121], JsonVal.num 2)]) [97]
      = some [([121], JsonVal.num 2)] ∧
    lookupObj
      ((childOf
        (envMergeStep (some (envMergeStep none [97, 61] [([120], JsonVal.num 1)]))
          [97, 61] [([121], JsonVal.num 2)]) [97]).getD [])
      [120] = none := by
  exact ⟨rfl, rfl⟩

/-- Witness instantiating the amended claim C1 at a concrete merge pair. -/
theorem C1_witness :
    lookupObj
      (envMergeStep (some (envMergeStep none ([97] ++ 61 :: [])
        [([120], JsonVal.num 1)])) ([97] ++ 61 :: [])
        [([121], JsonVal.num 2)]) [97]
      = some (JsonVal.obj (mergeInto [] [([121], JsonVal.num 2)])) :=
  C1_second_merge_replaces_namespace_child none [97] [] []
    [([120], JsonVal.num 1)] [([121], JsonVal.num 2)] (by decide) (by decide)

/-! ### Claim C2: precedence between configuration and library bindings -/

/-- Claim C2 (amended): when a configuration key sanitizes to the name of a
standard-library binding, the value observed in the globals scope is the
library binding, not the configuration value: the installer runs after
configuration registration and its insertion overwrites the entry. Stated
generally: whatever the configuration was, a name the installer binds (with
last installed value v) is observed as v. -/
theorem C2_library_binding_wins (sp : List Nat) (env : Option JObj)
    (libs : JObj) (n : List Nat) (v : JsonVal)
    (h : lastVal libs n = some v) :
    lookupObj (buildGlobals sp env libs) n = some v := by
  unfold buildGlobals uc_lib_init
  rw [lookupObj_foldl_objAdd, h]

/-- Counterexample to claim C2 as stated: config key print (bytes
112 114 105 110 116, already sanitized) with value 1 collides with a
library binding print; after construction the observed value is the library
binding, not the configuration value. -/
theorem C2_counterexample :
    sanitize [112, 114, 105, 110, 116] = [112, 114, 105, 110, 116] ∧
    lookupObj
      (buildGlobals [] (some [([112, 114, 105, 110, 116], JsonVal.num 1)])
        [([112, 114, 105, 110, 116], JsonVal.str [98])])
      [112, 114, 105, 110, 116] = some (JsonVal.str [98]) ∧
    JsonVal.str [98] ≠ JsonVal.num 1 :=
  ⟨rfl, rfl, fun h => JsonVal.noConfusion h⟩

/-- Witness instantiating the amended claim C2 at a concrete collision. -/
theorem C2_witness :
    lookupObj
      (buildGlobals [] (some [([112, 114, 105, 110, 116], JsonVal.num 7)])
        [([112, 114, 105, 110, 116], JsonVal.str [99])])
      [112, 114, 105, 110, 116] = some (JsonVal.str [99]) :=
  C2_library_binding_wins [] (some [([112, 114, 105, 110, 116], JsonVal.num 7)])
    [([112, 114, 105, 110, 116], JsonVal.str [99])]
    [112, 114, 105, 110, 116] (JsonVal.str [99]) rfl

/-! ### Claim C3: cleanup order of the execution driver -/

/-- Claim C3 (amended): on every terminating path of parse() the cleanup at
the out label releases the virtual-machine execution context first, then the
globals scope object, and then the root scope object when it was
constructed (it is constructed exactly when compilation succeeded) - not
globals first as the claim states. -/
theorem C3_cleanup_order (compileOk : Bool) (execRc : Int) :
    (parseTrace compileOk execRc).2.filter isRel =
      Ev.relVm :: Ev.relGlobals ::
        (if compileOk then [Ev.relRoot] else []) := by
  cases compileOk <;> rfl

/-- Counterexample to claim C3 as stated: on the successful path the release
order is vm, globals, root, which differs from the claimed order globals,
root, vm. -/
theorem C3_counterexample :
    (parseTrace true 0).2.filter isRel =
      [Ev.relVm, Ev.relGlobals, Ev.relRoot] ∧
    ([Ev.relVm, Ev.relGlobals, Ev.relRoot] : List Ev) ≠
      [Ev.relGlobals, Ev.relRoot, Ev.relVm] := by
  exact ⟨rfl, by decide⟩

/-! ### Claim C4: standard input is captured at most once -/

/-- Claim C4: once a capture has set the process-wide slot, every
subsequent read_stdin call fails with the already-consumed error, performs
no further read from the stream, and leaves the captured bytes unchanged;
and a first capture of a nonempty stream records exactly the stream bytes
in the slot. -/
theorem C4_stdin_capture_guard (bs stream : List Nat) (b : Nat)
    (rest : List Nat) :
    read_stdin (some bs) stream =
      (Except.error StdinErr.alreadyConsumed, some bs, stream) ∧
    (read_stdin none (b :: rest)).2.1 = some (b :: rest) ∧
    (read_stdin none (b :: rest)).1 = Except.ok (b :: rest) := by
  refine ⟨rfl, ?_, ?_⟩
  · show (if (chunksOf (b :: rest)).flatten = []
        then none else some ((chunksOf (b :: rest)).flatten))
      = some (b :: rest)
    rw [flatten_chunksOf]
    simp
  · show Except.ok ((chunksOf (b :: rest)).flatten) = Except.ok (b :: rest)
    rw [flatten_chunksOf]

/-! ### Claim C5: reader failure on non-success or non-object results -/

/-- Claim C5: whenever the tokenizer's terminal state after the chunked
read loop is not success, or the completed value is not a JSON object,
parse_envfile returns no value (the partial value is dropped, never
returned), and the option handler in main surfaces this as an
invalid-config error naming the option letter. -/
theorem C5_reader_rejects_non_object
    (tok : Tok) (e0 : TokErr) (input : List Nat) (letter : Nat)
    (h : (feedChunks tok (chunksOf input) [] none e0).2 ≠ TokErr.success ∨
         isObjV (feedChunks tok (chunksOf input) [] none e0).1 = false) :
    parse_envfileE tok e0 input = none ∧
    envOptCheck letter (parse_envfileE tok e0 input) =
      Except.error (MainErr.invalidConfig letter) := by
  have hres : parse_envfileE tok e0 input = none := by
    show (if (feedChunks tok (chunksOf input) [] none e0).2 ≠ TokErr.success ∨
          isObjV (feedChunks tok (chunksOf input) [] none e0).1 = false
        then none
        else (feedChunks tok (chunksOf input) [] none e0).1) = none
    rw [if_pos h]
  refine ⟨hres, ?_⟩
  rw [hres]
  rfl

/-- Witness instantiating claim C5 with a rejecting tokenizer on a one-byte
source, surfaced for option letter e (byte 101). -/
theorem C5_witness :
    parse_envfileE tokReject TokErr.cont [55] = none ∧
    envOptCheck 101 (parse_envfileE tokReject TokErr.cont [55]) =
      Except.error (MainErr.invalidConfig 101) :=
  C5_reader_rejects_non_object tokReject TokErr.cont [55] 101
    (Or.inl (by decide))

/-! ### Claim C6: shebang skipping, applied iff positional -/

/-- Claim C6 (amended): the shebang mark is set if and only if the source
resolved from a bare positional path. Because parse() stores the fgetc
results into signed char variables, byte 255 (0xFF) is conflated with EOF,
so the discarding and pushback behavior the claim describes holds for
sources whose examined bytes are real bytes other than 0xFF: when the
source starts with hash bang (35, 33) and the shebang line is free of
0xFF, the compiler sees only the bytes after the first newline (or nothing
when the line never ends); when the first two bytes are not hash bang and
neither probed byte is 0xFF, both are pushed back in last-in-first-out
order and the compiler sees the original bytes with no bytes lost; and
with the mark unset the bytes are untouched. (A probed 0xFF byte is lost
through the failing ungetc(EOF), and a 0xFF byte inside the shebang line
ends the discard early - see the counterexample.) -/
theorem C6_shebang_iff_positional
    (opts : List SrcOpt) (pos : Option (List Nat))
    (bytes line body : List Nat) :
    ((resolveSource opts pos).2.1 = true ↔
      ∃ p, (resolveSource opts pos).1 = some (Origin.fromPos p)) ∧
    (10 ∉ line → 255 ∉ line → (∀ b ∈ line, b < 256) →
      sourceSeenByCompiler true (35 :: 33 :: (line ++ 10 :: body)) = body) ∧
    (10 ∉ line → 255 ∉ line → (∀ b ∈ line, b < 256) →
      sourceSeenByCompiler true (35 :: 33 :: line) = []) ∧
    (bytes.take 2 ≠ [35, 33] → (∀ b ∈ bytes.take 2, b < 256 ∧ b ≠ 255) →
      sourceSeenByCompiler true bytes = bytes) ∧
    sourceSeenByCompiler false bytes = bytes := by
  refine ⟨?_, ?_, ?_, ?_, rfl⟩
  · cases hop : opts with
    | nil =>
        cases pos with
        | none => simp [resolveSource]
        | some p => simp [resolveSource]
    | cons a rest =>
        obtain ⟨o, hlast, hsrc⟩ :=
          foldl_applyOpt_last (a :: rest) (by simp) ((none : Option Origin), 0)
        unfold resolveSource
        rw [hsrc]
        simp only [Prod.snd, Prod.fst]
        constructor
        · intro hfalse
          exact absurd hfalse (by simp)
        · rintro ⟨p, hp⟩
          rw [Option.some_inj] at hp
          exact absurd hp (originOf_ne_fromPos o p)
  · intro h10 h255 hlt
    show (skip_shebang (35 :: 33 :: (line ++ 10 :: body))).1 = body
    rw [skip_shebang_marker, discardLine_newline line body h10 h255 hlt]
  · intro h10 h255 hlt
    show (skip_shebang (35 :: 33 :: line)).1 = []
    rw [skip_shebang_marker, discardLine_eof line h10 h255 hlt]
  · intro h hp
    show (skip_shebang bytes).1 = bytes
    rw [skip_shebang_no_marker bytes h hp]

/-- Counterexample to claim C6 as stated: with the source bytes 255 110
(first two bytes not hash bang) the failing ungetc(EOF) loses the leading
0xFF byte, so the compiler does not see the original content; and with the
source hash bang followed by 255 97 10 66, the discard stops at the 0xFF
byte instead of running through the newline, so the compiler sees 97 10 66
rather than only the post-newline remainder 66. -/
theorem C6_counterexample :
    ([255, 110] : List Nat).take 2 ≠ [35, 33] ∧
    sourceSeenByCompiler true [255, 110] = [110] ∧
    ([110] : List Nat) ≠ [255, 110] ∧
    sourceSeenByCompiler true [35, 33, 255, 97, 10, 66] = [97, 10, 66] ∧
    ([97, 10, 66] : List Nat) ≠ [66] := by
  decide

/-- Witness instantiating the amended claim C6: no source option plus a
positional path sets the shebang mark; a 0xFF-free shebang line is
stripped through its newline and to end of input; a 0xFF-free source
without the marker bytes is untouched. -/
theorem C6_witness :
    ((resolveSource [] (some [102])).2.1 = true ↔
      ∃ p, (resolveSource [] (some [102])).1 = some (Origin.fromPos p)) ∧
    sourceSeenByCompiler true (35 :: 33 :: ([47, 120] ++ 10 :: [66])) = [66] ∧
    sourceSeenByCompiler true (35 :: 33 :: [47, 120]) = [] ∧
    sourceSeenByCompiler true [110, 111] = [110, 111] ∧
    sourceSeenByCompiler false [110, 111] = [110, 111] := by
  obtain ⟨h1, h2, h3, h4, h5⟩ :=
    C6_shebang_iff_positional [] (some [102]) [110, 111] [47, 120] [66]
  exact ⟨h1, h2 (by decide) (by decide) (by decide),
    h3 (by decide) (by decide) (by decide), h4 (by decide) (by decide), h5⟩

/-! ### Claim C7: offset accounting during shebang skipping -/

/-- Claim C7 (amended): for a positional source starting with the hash
bang bytes, the amount added to the position-tracking offset equals the
number of bytes consumed by the discard loop only, that is the total count
of discarded bytes minus the two marker bytes - provided the shebang line
is free of byte 255 (0xFF) - both when the line ends in a newline and when
it runs to end of input; a 0xFF byte in the line (conflated with EOF by
the signed char store) instead ends the discard early: it is consumed but
not counted, so the offset then equals the discarded count minus three. -/
theorem C7_off_excludes_marker_bytes (line body rest : List Nat)
    (h10 : 10 ∉ line) (h255 : 255 ∉ line) (hlt : ∀ b ∈ line, b < 256) :
    (skip_shebang (35 :: 33 :: (line ++ 10 :: body)) =
        (body, line.length + 1) ∧
      (35 :: 33 :: (line ++ 10 :: body)).length - body.length =
        (line.length + 1) + 2) ∧
    skip_shebang (35 :: 33 :: line) = ([], line.length) ∧
    (skip_shebang (35 :: 33 :: (line ++ 255 :: rest)) = (rest, line.length) ∧
      (35 :: 33 :: (line ++ 255 :: rest)).length - rest.length =
        line.length + 3) := by
  refine ⟨⟨?_, ?_⟩, ?_, ?_, ?_⟩
  · rw [skip_shebang_marker]
    exact discardLine_newline line body h10 h255 hlt
  · simp
    omega
  · rw [skip_shebang_marker]
    exact discardLine_eof line h10 h255 hlt
  · rw [skip_shebang_marker]
    exact discardLine_at_255 line rest h10 h255 hlt
  · simp
    omega

/-- Counterexample to claim C7 as stated: for the source hash bang newline
X (bytes 35 33 10 88) three bytes are discarded but only one is added to
the offset, so the added amount differs from the discarded count. -/
theorem C7_counterexample :
    skip_shebang [35, 33, 10, 88] = ([88], 1) ∧
    (skip_shebang [35, 33, 10, 88]).2 ≠
      [35, 33, 10, 88].length - (skip_shebang [35, 33, 10, 88]).1.length := by
  decide

/-- Witness instantiating the amended claim C7 on concrete shebang lines:
a newline-terminated line, a line running to end of input, and a line cut
short by a 0xFF byte. -/
theorem C7_witness :
    (skip_shebang (35 :: 33 :: ([47] ++ 10 :: [66, 67])) = ([66, 67], 2) ∧
      (35 :: 33 :: ([47] ++ 10 :: [66, 67])).length - [66, 67].length =
        2 + 2) ∧
    skip_shebang (35 :: 33 :: [47]) = ([], 1) ∧
    (skip_shebang (35 :: 33 :: ([47] ++ 255 :: [99])) = ([99], 1) ∧
      (35 :: 33 :: ([47] ++ 255 :: [99])).length - [99].length = 1 + 3) :=
  C7_off_excludes_marker_bytes [47] [66, 67] [99]
    (by decide) (by decide) (by decide)

/-! ### Claim C8: sanitization invariant of installed variable names -/

/-- Claim C8 (amended): every byte of an installed variable name lies in
the word class (so the name matches the pattern of zero or more word
characters; the empty key installs the empty name, so the nonempty form of
the pattern does not hold); the key 1-bad installs as 1_bad; and when two
keys sanitize to the same name the later insertion overwrites the earlier
one. -/
theorem C8_sanitize_invariant (scope : JObj) (k k2 : List Nat)
    (v v2 : JsonVal) :
    ((sanitize k).all isWordByte = true) ∧
    sanitize [49, 45, 98, 97, 100] = [49, 95, 98, 97, 100] ∧
    (sanitize k = sanitize k2 →
      lookupObj (register_variable (register_variable scope k v) k2 v2)
        (sanitize k) = some v2) := by
  refine ⟨?_, rfl, ?_⟩
  · rw [sanitize, List.all_map]
    apply List.all_eq_true.mpr
    intro x _
    exact isWordByte_sanitizeByte x
  · intro h
    unfold register_variable
    rw [h]
    exact lookupObj_objAdd_self _ _ _

/-- Counterexample to claim C8 as stated: the empty key (legal in a JSON
object) is installed under the empty name, which does not satisfy the
nonempty pattern the claim requires. -/
theorem C8_counterexample :
    register_variable [] [] JsonVal.null = [([], JsonVal.null)] ∧
    matchesVarPattern [] = false :=
  ⟨rfl, rfl⟩

/-- Witness instantiating the amended claim C8: keys 1- and 1_ collide
after sanitization and the later insertion wins. -/
theorem C8_witness :
    ((sanitize [49, 45]).all isWordByte = true) ∧
    lookupObj (register_variable (register_variable [] [49, 45] JsonVal.null)
      [49, 95] (JsonVal.num 2)) (sanitize [49, 45]) = some (JsonVal.num 2) := by
  obtain ⟨h1, -, h3⟩ :=
    C8_sanitize_invariant [] [49, 45] [49, 95] JsonVal.null (JsonVal.num 2)
  exact ⟨h1, h3 rfl⟩

/-! ### Claim C9: the reader on an empty byte source -/

/-- Claim C9 (amended): on an empty byte source the tokenizer-error
variable is indeed read without having been assigned (modelled by the
explicit parameter for its indeterminate initial content), but the
success/failure outcome is determined all the same: the reader fails for
every value that variable may hold, because the absent result value fails
the object-type test; and on any input the outcome never depends on the
indeterminate initial content. -/
theorem C9_empty_input_outcome_determined (tok : Tok) (e0 e1 : TokErr)
    (input : List Nat) :
    parse_envfileE tok e0 [] = none ∧
    parse_envfileE tok e0 input = parse_envfileE tok e1 input := by
  constructor
  · show (if (feedChunks tok (chunksOf []) [] none e0).2 ≠ TokErr.success ∨
          isObjV (feedChunks tok (chunksOf []) [] none e0).1 = false
        then none
        else (feedChunks tok (chunksOf []) [] none e0).1) = none
    rw [show feedChunks tok (chunksOf []) [] none e0 = (none, e0) from rfl]
    simp [isObjV]
  · cases h : chunksOf input with
    | nil =>
        show (if (feedChunks tok (chunksOf input) [] none e0).2 ≠ TokErr.success ∨
            isObjV (feedChunks tok (chunksOf input) [] none e0).1 = false
          then none
          else (feedChunks tok (chunksOf input) [] none e0).1) =
          (if (feedChunks tok (chunksOf input) [] none e1).2 ≠ TokErr.success ∨
            isObjV (feedChunks tok (chunksOf input) [] none e1).1 = false
          then none
          else (feedChunks tok (chunksOf input) [] none e1).1)
        rw [h]
        rw [show feedChunks tok [] [] none e0 = (none, e0) from rfl]
        rw [show feedChunks tok [] [] none e1 = (none, e1) from rfl]
        simp [isObjV]
    | cons ch rest =>
        show (if (feedChunks tok (chunksOf input) [] none e0).2 ≠ TokErr.success ∨
            isObjV (feedChunks tok (chunksOf input) [] none e0).1 = false
          then none
          else (feedChunks tok (chunksOf input) [] none e0).1) =
          (if (feedChunks tok (chunksOf input) [] none e1).2 ≠ TokErr.success ∨
            isObjV (feedChunks tok (chunksOf input) [] none e1).1 = false
          then none
          else (feedChunks tok (chunksOf input) [] none e1).1)
        rw [h]
        rfl

/-- Counterexample to claim C9 as stated: with a concrete tokenizer the
outcome on the empty source is the same failure for every one of the three
values the unassigned error variable can hold, so the success/failure
outcome is determined by the input after all. -/
theorem C9_counterexample :
    parse_envfileE tokReject TokErr.success [] = none ∧
    parse_envfileE tokReject TokErr.cont [] = none ∧
    parse_envfileE tokReject TokErr.failed [] = none :=
  ⟨rfl, rfl, rfl⟩

/-! ### Claim C10: resolution when both -i and -s are given -/

/-- Claim C10: when the command line carries both a -i and a -s option, the
source actually used is the one installed by whichever of the two appears
last (each handler overwrites the previously resolved source), and at
least one exclusivity conflict diagnostic is emitted along the way. -/
theorem C10_last_source_option_wins (opts : List SrcOpt)
    (pos : Option (List Nat)) (p t : List Nat)
    (hi : SrcOpt.optI p ∈ opts) (hs : SrcOpt.optS t ∈ opts) :
    (∃ o, lastOpt opts = some o ∧
      (resolveSource opts pos).1 = some (originOf o)) ∧
    1 ≤ (resolveSource opts pos).2.2 := by
  have hne : opts ≠ [] := by
    intro hop
    rw [hop] at hi
    exact absurd hi (List.not_mem_nil _)
  obtain ⟨o, hlast, hsrc⟩ := foldl_applyOpt_last opts hne (none, 0)
  constructor
  · refine ⟨o, hlast, ?_⟩
    unfold resolveSource
    rw [hsrc]
  · unfold resolveSource
    rw [hsrc]
    simp only []
    cases hop : opts with
    | nil => exact absurd hop hne
    | cons a rest =>
        rw [← hop]
        have hd : (opts.foldl applyOpt (none, 0)).2 = rest.length := by
          rw [hop]
          exact foldl_applyOpt_diag_none a rest
        rw [hd]
        cases hrest : rest with
        | nil =>
            exfalso
            rw [hop, hrest] at hi hs
            have hia : SrcOpt.optI p = a := by simpa using hi
            have hsa : SrcOpt.optS t = a := by simpa using hs
            rw [← hia] at hsa
            exact SrcOpt.noConfusion hsa
        | cons b tail => simp

/-- Witness instantiating claim C10: with -i f followed by -s t the
resolved source is the inline text of the later -s, and a conflict was
diagnosed. -/
theorem C10_witness :
    (∃ o, lastOpt [SrcOpt.optI [102], SrcOpt.optS [116]] = some o ∧
      (resolveSource [SrcOpt.optI [102], SrcOpt.optS [116]] none).1 =
        some (originOf o)) ∧
    1 ≤ (resolveSource [SrcOpt.optI [102], SrcOpt.optS [116]] none).2.2 :=
  C10_last_source_option_wins [SrcOpt.optI [102], SrcOpt.optS [116]] none
    [102] [116] (by decide) (by decide)

end Ucode
